import Mathlib

/-!
Verification of the blort visit tracker (src/main.rs).

The program keeps one Postgres table `items` with columns `name` (unique
text key), `count` (integer) and `last_seen` (timestamp).  We embed the
stored state as a list of rows and each SQL statement issued by the
program as a function on that state.  Timestamps are abstracted to `Nat`
(each store round trip that runs `NOW()` receives its timestamp as an
argument) and the integer `count` column is modelled as `Int`.
-/

namespace Blort

/-- The CLI ordering selector `OrderBy` from main.rs. -/
inductive OrderBy where
  | lastSeen
  | visits
deriving DecidableEq, Repr

/-- One row of the `items` table: a name with its visit count and its
last-seen timestamp. -/
structure VisitRecord where
  name : String
  count : Int
  lastSeen : Nat
deriving DecidableEq, Repr

/-- The stored state: the rows of the `items` table. -/
abbrev DbState := List VisitRecord

/-- Semantics of `SELECT count, last_seen FROM items WHERE name = $1` with
`fetch_optional`: the row for `name`, if one exists. -/
def findRecord (name : String) (s : DbState) : Option VisitRecord :=
  s.find? (fun r => r.name == name)

/-- Semantics of the atomic statement in `hello_name`:
`INSERT INTO items (name, count, last_seen) VALUES ($1, 1, NOW())
 ON CONFLICT (name) DO UPDATE SET count = items.count + 1, last_seen = NOW()`.
A conflict occurs exactly when a row with this name already exists; then
that row has its count bumped by 1 and its last_seen refreshed, otherwise a
fresh row with count 1 is inserted. -/
def upsert (name : String) (now : Nat) (s : DbState) : DbState :=
  match findRecord name s with
  | some _ =>
      s.map (fun r =>
        if r.name == name then { r with count := r.count + 1, lastSeen := now } else r)
  | none => s ++ [⟨name, 1, now⟩]

/-- The count currently stored for `name` (0 when no row exists). -/
def storedCount (name : String) (s : DbState) : Int :=
  match findRecord name s with
  | some r => r.count
  | none => 0

/-- The read-then-write core of `hello_name`: capture the prior count and
last_seen of the row for `name` (0 and `none` when absent), then run the
atomic upsert.  Returns the captured prior pair and the updated state. -/
def recordVisit (name : String) (now : Nat) (s : DbState) :
    (Int × Option Nat) × DbState :=
  let prev :=
    match findRecord name s with
    | some r => (r.count, some r.lastSeen)
    | none => ((0 : Int), (none : Option Nat))
  (prev, upsert name now s)

/-- The response string `hello_name` formats from the captured previous
count and previous last_seen. -/
def greeting (name : String) (previousCount : Int)
    (previousLastSeen : Option Nat) : String :=
  match previousLastSeen with
  | some ls =>
      "Hello " ++ name ++ "! You\x27ve been called " ++ toString previousCount ++
        " times previously. Last seen: " ++ toString ls
  | none => "Hello " ++ name ++ "! This is your first visit!"

/-- The `hello_name` handler on the fault-free path: the greeting string it
returns together with the updated stored state. -/
def hello_name (name : String) (now : Nat) (s : DbState) : String × DbState :=
  let res := recordVisit name now s
  (greeting name res.1.1 res.1.2, res.2)

/-- The `hello_name` handler with store faults injected: `selFault` is a
fault raised by the SELECT round trip, `upsFault` one raised by the upsert
round trip.  Each fault is mapped through `map_err` to a
`Database error: ...` message and aborts the handler; the upsert is a
single atomic statement, so a fault leaves the stored state untouched. -/
def hello_name_faulty (selFault upsFault : Option String) (name : String)
    (now : Nat) (s : DbState) : Except String String × DbState :=
  match selFault with
  | some e => (.error ("Database error: " ++ e), s)
  | none =>
    let res := recordVisit name now s
    match upsFault with
    | some e => (.error ("Database error: " ++ e), s)
    | none => (.ok (greeting name res.1.1 res.1.2), res.2)

/-- Semantics of `TRUNCATE TABLE items` in `clear_database`: every row is
removed. -/
def clear_database (_s : DbState) : DbState := []

/-- The boolean comparison realised by `ORDER BY last_seen DESC` resp.
`ORDER BY count DESC`: `a` may precede `b` when its key is at least the key
of `b`. -/
def recLE (ord : OrderBy) (a b : VisitRecord) : Bool :=
  match ord with
  | .lastSeen => decide (b.lastSeen ≤ a.lastSeen)
  | .visits => decide (b.count ≤ a.count)

/-- The conversion `limit as i32` in `show_names`: the u32 value is
reinterpreted as a signed 32-bit integer, so 2^32 is subtracted when the
high bit is set. -/
def u32ToI32 (n : Nat) : Int :=
  if n < 2147483648 then (n : Int) else (n : Int) - 4294967296

/-- Semantics of `SELECT name, count, last_seen FROM items ORDER BY key DESC
LIMIT $1`: Postgres rejects a negative LIMIT argument with an error;
otherwise at most `limit` rows are returned in descending key order. -/
def selectTop (limit : Int) (ord : OrderBy) (s : DbState) :
    Except String (List VisitRecord) :=
  if limit < 0 then .error "LIMIT must not be negative"
  else .ok ((s.mergeSort (recLE ord)).take limit.toNat)

/-- The query layer of `show_names`: the u32 CLI limit is cast with
`as i32` before being bound as the LIMIT argument. -/
def show_names (limit : Nat) (ord : OrderBy) (s : DbState) :
    Except String (List VisitRecord) :=
  selectTop (u32ToI32 limit) ord s

/-- One atomic store round trip, as issued by the handlers: the SELECT of
`hello_name`, its upsert, or the TRUNCATE of `clear_database`. -/
inductive StoreOp where
  | selectOp (name : String)
  | upsertOp (name : String) (now : Nat)
  | truncateOp
deriving DecidableEq, Repr

/-- Effect of one store round trip on the stored state; SELECTs read only. -/
def applyOp (e : StoreOp) (s : DbState) : DbState :=
  match e with
  | .selectOp _ => s
  | .upsertOp n t => upsert n t s
  | .truncateOp => clear_database s

/-- Effect of a trace of store round trips, in store commit order. -/
def applyTrace (es : List StoreOp) (s : DbState) : DbState :=
  es.foldl (fun s e => applyOp e s) s

/-- Whether a store round trip belongs to a RecordVisit call for `name`. -/
def isVisitEvent (name : String) (e : StoreOp) : Bool :=
  match e with
  | .selectOp n => n == name
  | .upsertOp n _ => n == name
  | .truncateOp => false

/-- The number of upserts for `name` in a trace: each RecordVisit call for
`name` commits exactly one. -/
def upsertCount (name : String) (es : List StoreOp) : Nat :=
  es.countP (fun e =>
    match e with
    | .upsertOp n _ => n == name
    | _ => false)

/-- The state reached by k sequential RecordVisit calls for `name`, with
timestamps `ts`. -/
def iterVisits (name : String) (ts : List Nat) (s : DbState) : DbState :=
  ts.foldl (fun s t => (recordVisit name t s).2) s

/-- The state invariant of the `items` table: names are unique keys, and
every stored count is at least 1. -/
def Inv (s : DbState) : Prop :=
  (s.map (fun r => r.name)).Nodup ∧ ∀ r ∈ s, 1 ≤ r.count

/-- A commit trace interleaving 100 RecordVisit("alice") calls: all 100
SELECTs commit first, then the 100 upserts. -/
def burst100 : List StoreOp :=
  (List.replicate 100 (StoreOp.selectOp "alice")) ++
    (List.range 100).map (fun i => StoreOp.upsertOp "alice" i)

/-! ## Helper lemmas -/

/-- The row rewrite performed by the ON CONFLICT branch never changes a
name. -/
theorem bump_name (x : String) (t : Nat) (r : VisitRecord) :
    (if r.name == x then { r with count := r.count + 1, lastSeen := t } else r).name
      = r.name := by
  by_cases h : r.name == x <;> simp [h]

/-- After an upsert for `x`, the row for `x` exists: its count is bumped by
one when a row existed, and is 1 on a fresh row. -/
theorem findRecord_upsert_self (x : String) (t : Nat) (s : DbState) :
    findRecord x (upsert x t s) =
      some (match findRecord x s with
        | some r => { r with count := r.count + 1, lastSeen := t }
        | none => ⟨x, 1, t⟩) := by
  unfold upsert
  cases h : findRecord x s with
  | none =>
    unfold findRecord at h ⊢
    rw [List.find?_append, h]
    simp
  | some r =>
    unfold findRecord at h ⊢
    rw [List.find?_map]
    have hpc : ((fun r : VisitRecord => r.name == x) ∘ fun r =>
        if r.name == x then { r with count := r.count + 1, lastSeen := t } else r) =
        fun r : VisitRecord => r.name == x := by
      funext r
      by_cases hr : r.name = x <;> simp [hr]
    rw [hpc, h]
    have hp : r.name = x := by simpa using List.find?_some h
    simp [hp]

/-- The stored count for `x` grows by exactly one under an upsert for `x`. -/
theorem storedCount_upsert_self (x : String) (t : Nat) (s : DbState) :
    storedCount x (upsert x t s) = storedCount x s + 1 := by
  unfold storedCount
  rw [findRecord_upsert_self]
  cases h : findRecord x s <;> simp

/-- An upsert for `x` does not touch the row of any other name. -/
theorem findRecord_upsert_other (x y : String) (t : Nat) (s : DbState)
    (h : y ≠ x) :
    findRecord y (upsert x t s) = findRecord y s := by
  unfold upsert
  cases hx : findRecord x s with
  | none =>
    unfold findRecord
    rw [List.find?_append]
    have hsin : List.find? (fun r => r.name == y) [(⟨x, 1, t⟩ : VisitRecord)] = none := by
      simp [Ne.symm h]
    rw [hsin]
    cases List.find? (fun r => r.name == y) s <;> rfl
  | some r =>
    unfold findRecord
    rw [List.find?_map]
    have hpc : ((fun r : VisitRecord => r.name == y) ∘ fun r =>
        if r.name == x then { r with count := r.count + 1, lastSeen := t } else r) =
        fun r : VisitRecord => r.name == y := by
      funext r
      rw [Function.comp_apply, bump_name]
    rw [hpc]
    cases hy : List.find? (fun r : VisitRecord => r.name == y) s with
    | none => rfl
    | some r' =>
      have hp : r'.name = y := by simpa using List.find?_some hy
      have hne : ¬r'.name = x := by
        rw [hp]
        exact h
      simp [hne]

/-- The updated state returned by `recordVisit` is the upserted state. -/
theorem recordVisit_snd (x : String) (t : Nat) (s : DbState) :
    (recordVisit x t s).2 = upsert x t s := rfl

/-- The previous count captured by `recordVisit` is exactly the stored
count before the call. -/
theorem recordVisit_fst_count (x : String) (t : Nat) (s : DbState) :
    (recordVisit x t s).1.1 = storedCount x s := by
  unfold recordVisit storedCount
  cases h : findRecord x s <;> simp

/-- An upsert preserves the table invariant. -/
theorem Inv_upsert (x : String) (t : Nat) (s : DbState) (h : Inv s) :
    Inv (upsert x t s) := by
  obtain ⟨hnd, hcnt⟩ := h
  unfold upsert
  cases hx : findRecord x s with
  | some r =>
    constructor
    · have hmap : (s.map (fun r =>
          if r.name == x then { r with count := r.count + 1, lastSeen := t } else r)).map
            (fun r => r.name) = s.map (fun r => r.name) := by
        rw [List.map_map]
        exact List.map_congr_left (fun a _ => bump_name x t a)
      rw [hmap]
      exact hnd
    · intro r' hr'
      obtain ⟨a, ha, rfl⟩ := List.mem_map.mp hr'
      by_cases hax : a.name = x
      · simp only [hax, beq_self_eq_true, if_true]
        have := hcnt a ha
        omega
      · simp only [beq_iff_eq, hax, if_false]
        exact hcnt a ha
  | none =>
    have hx' : ∀ r ∈ s, ¬(r.name = x) := by
      intro r hr
      have := List.find?_eq_none.mp hx r hr
      simpa using this
    constructor
    · rw [List.map_append, List.nodup_append]
      refine ⟨hnd, by simp, ?_⟩
      intro a ha hb
      simp only [List.map_cons, List.map_nil, List.mem_singleton] at hb
      obtain ⟨r, hr, hra⟩ := List.mem_map.mp ha
      exact hx' r hr (by rw [hra, hb])
    · intro r' hr'
      rcases List.mem_append.mp hr' with hin | hin
      · exact hcnt r' hin
      · simp only [List.mem_singleton] at hin
        rw [hin]

/-- Every atomic store round trip preserves the table invariant. -/
theorem Inv_applyOp (e : StoreOp) (s : DbState) (h : Inv s) :
    Inv (applyOp e s) := by
  cases e with
  | selectOp n => exact h
  | upsertOp n t => exact Inv_upsert n t s h
  | truncateOp => exact ⟨by simp [applyOp, clear_database], by simp [applyOp, clear_database]⟩

/-- Unfolding one step of a trace. -/
theorem applyTrace_cons (e : StoreOp) (es : List StoreOp) (s : DbState) :
    applyTrace (e :: es) s = applyTrace es (applyOp e s) := rfl

/-- A trace of RecordVisit round trips for `x` adds exactly one to the
stored count of `x` per upsert it contains. -/
theorem storedCount_applyTrace (x : String) (es : List StoreOp) (s : DbState)
    (h : ∀ e ∈ es, isVisitEvent x e = true) :
    storedCount x (applyTrace es s) = storedCount x s + upsertCount x es := by
  induction es generalizing s with
  | nil => simp [applyTrace, upsertCount]
  | cons e es ih =>
    have he := h e (List.mem_cons_self e es)
    have hes : ∀ e' ∈ es, isVisitEvent x e' = true :=
      fun e' h' => h e' (List.mem_cons_of_mem e h')
    cases e with
    | selectOp n =>
      rw [applyTrace_cons]
      have hcount : upsertCount x (StoreOp.selectOp n :: es) = upsertCount x es := by
        simp [upsertCount, List.countP_cons]
      rw [hcount]
      exact ih (applyOp (StoreOp.selectOp n) s) hes
    | upsertOp n t =>
      have hn : n = x := by simpa [isVisitEvent] using he
      rw [applyTrace_cons]
      have hcount : upsertCount x (StoreOp.upsertOp n t :: es) = upsertCount x es + 1 := by
        simp [upsertCount, List.countP_cons, hn]
      rw [hcount, ih (applyOp (StoreOp.upsertOp n t) s) hes]
      have happ : applyOp (StoreOp.upsertOp n t) s = upsert x t s := by rw [hn]; rfl
      rw [happ, storedCount_upsert_self]
      push_cast
      ring
    | truncateOp => exact absurd he (by simp [isVisitEvent])

/-- Unfolding one step of a visit sequence. -/
theorem iterVisits_cons (x : String) (t : Nat) (ts : List Nat) (s : DbState) :
    iterVisits x (t :: ts) s = iterVisits x ts (upsert x t s) := rfl

/-- The stored count after k sequential RecordVisit calls grew by k. -/
theorem storedCount_iterVisits (x : String) (ts : List Nat) (s : DbState) :
    storedCount x (iterVisits x ts s) = storedCount x s + ts.length := by
  induction ts generalizing s with
  | nil => simp [iterVisits]
  | cons t ts ih =>
    rw [iterVisits_cons, ih, storedCount_upsert_self]
    simp only [List.length_cons]
    push_cast
    ring

/-- The descending comparison is transitive. -/
theorem recLE_trans (ord : OrderBy) (a b c : VisitRecord)
    (hab : recLE ord a b) (hbc : recLE ord b c) : recLE ord a c := by
  cases ord <;> simp [recLE] at * <;> omega

/-- The descending comparison is total. -/
theorem recLE_total (ord : OrderBy) (a b : VisitRecord) :
    recLE ord a b || recLE ord b a := by
  cases ord <;> simp [recLE] <;> omega

/-- With an in-range limit, `show_names` succeeds and returns the first
`limit` rows of the descending sort. -/
theorem show_names_ok (limit : Nat) (ord : OrderBy) (s : DbState)
    (hlt : limit < 2147483648) :
    show_names limit ord s = .ok ((s.mergeSort (recLE ord)).take limit) := by
  have hcast : u32ToI32 limit = (limit : Int) := by simp [u32ToI32, hlt]
  have hnn : ¬((limit : Int) < 0) := by omega
  unfold show_names selectTop
  rw [hcast, if_neg hnn, Int.toNat_natCast]

/-! ## Claims -/

/-- C1: under N concurrent RecordVisit calls for the same name — modelled as
any store commit order of their SELECT and upsert round trips — the final
stored count equals N plus the count stored before the burst; no increment
is lost, regardless of interleaving. -/
theorem recordVisit_no_lost_updates (x : String) (es : List StoreOp)
    (s : DbState) (N : Nat)
    (hcalls : ∀ e ∈ es, isVisitEvent x e = true)
    (hN : upsertCount x es = N) :
    storedCount x (applyTrace es s) = storedCount x s + N := by
  rw [storedCount_applyTrace x es s hcalls, hN]

set_option maxRecDepth 10000 in
/-- Witness for C1: a trace interleaving 100 RecordVisit("alice") calls
against an empty registry leaves a stored count of exactly 100. -/
theorem recordVisit_no_lost_updates_witness :
    storedCount "alice" (applyTrace burst100 []) = storedCount "alice" [] + 100 :=
  recordVisit_no_lost_updates "alice" burst100 [] 100 (by decide) (by decide)

/-- C2: starting from a state with no record for `x`, the k-th of k
sequential RecordVisit calls returns previousCount = k-1, and after the
sequence the stored count equals k (here k = ts.length + 1: `ts` are the
timestamps of the first k-1 calls and `t` that of the k-th). -/
theorem recordVisit_sequential (x : String) (s : DbState) (ts : List Nat)
    (t : Nat) (h : findRecord x s = none) :
    (recordVisit x t (iterVisits x ts s)).1.1 = (ts.length : Int) ∧
    storedCount x (iterVisits x (ts ++ [t]) s) = (ts.length : Int) + 1 := by
  have h0 : storedCount x s = 0 := by unfold storedCount; rw [h]
  constructor
  · rw [recordVisit_fst_count, storedCount_iterVisits, h0]
    ring
  · rw [storedCount_iterVisits, h0]
    simp only [List.length_append, List.length_singleton]
    push_cast
    ring

/-- Witness for C2: three sequential visits of alice on an empty registry;
the third call returns previousCount = 2 and the stored count ends at 3. -/
theorem recordVisit_sequential_witness :
    (recordVisit "alice" 2 (iterVisits "alice" [0, 1] [])).1.1 = ((2 : Nat) : Int) ∧
    storedCount "alice" (iterVisits "alice" ([0, 1] ++ [2]) []) = ((2 : Nat) : Int) + 1 :=
  recordVisit_sequential "alice" [] [0, 1] 2 rfl

/-- C3: RecordVisit on a name with no record returns previousCount = 0 and
previousLastSeen = none; on a name with a record it returns that record's
pre-update count and last_seen; and a second call after a first visit
returns previousCount = 1. -/
theorem recordVisit_first_visit (x : String) (t₁ t₂ : Nat) (s : DbState) :
    (findRecord x s = none → (recordVisit x t₁ s).1 = (0, none)) ∧
    (∀ r, findRecord x s = some r →
      (recordVisit x t₁ s).1 = (r.count, some r.lastSeen)) ∧
    (findRecord x s = none →
      (recordVisit x t₂ (recordVisit x t₁ s).2).1.1 = 1) := by
  refine ⟨?_, ?_, ?_⟩
  · intro h
    simp [recordVisit, h]
  · intro r h
    simp [recordVisit, h]
  · intro h
    rw [recordVisit_fst_count, recordVisit_snd, storedCount_upsert_self]
    unfold storedCount
    rw [h]
    ring

/-- Witness for C3: alice is fresh, bob has a record with count 4 and
last_seen 7; the second call for alice returns previousCount = 1. -/
theorem recordVisit_first_visit_witness :
    (recordVisit "alice" 1 []).1 = (0, none) ∧
    (recordVisit "bob" 9 [⟨"bob", 4, 7⟩]).1 = ((4 : Int), some 7) ∧
    (recordVisit "alice" 2 (recordVisit "alice" 1 []).2).1.1 = 1 :=
  ⟨(recordVisit_first_visit "alice" 1 2 []).1 rfl,
   (recordVisit_first_visit "bob" 9 9 [⟨"bob", 4, 7⟩]).2.1 ⟨"bob", 4, 7⟩ rfl,
   (recordVisit_first_visit "alice" 1 2 []).2.2 rfl⟩

/-- C4: every store round trip (the SELECT and upsert of RecordVisit, the
ordered SELECT of ListTop reads nothing into the state, the TRUNCATE of
ClearAll) preserves the invariant that names are unique and counts are at
least 1; moreover an upsert sets a fresh count to exactly 1 and bumps an
existing count by exactly 1. -/
theorem registry_invariant (e : StoreOp) (x : String) (t : Nat) (s : DbState)
    (h : Inv s) :
    Inv (applyOp e s) ∧
    storedCount x (upsert x t s) = storedCount x s + 1 ∧
    (findRecord x s = none → findRecord x (upsert x t s) = some ⟨x, 1, t⟩) := by
  refine ⟨Inv_applyOp e s h, storedCount_upsert_self x t s, ?_⟩
  intro hn
  rw [findRecord_upsert_self, hn]

/-- Witness for C4: the invariant holds after an upsert on the empty
registry, whose fresh row carries count 1. -/
theorem registry_invariant_witness :
    Inv (applyOp (StoreOp.upsertOp "alice" 5) []) ∧
    storedCount "alice" (upsert "alice" 5 []) = storedCount "alice" [] + 1 ∧
    (findRecord "alice" [] = none →
      findRecord "alice" (upsert "alice" 5 []) = some ⟨"alice", 1, 5⟩) :=
  registry_invariant (StoreOp.upsertOp "alice" 5) "alice" 5 [] (by simp [Inv])

/-- C5 counterexample: ListTop with the positive limit 2147483648 against
an empty registry fails with an error instead of returning the empty
sequence, because `limit as i32` turns the value negative. -/
theorem show_names_large_limit_error :
    show_names 2147483648 OrderBy.lastSeen [] = .error "LIMIT must not be negative" ∧
    show_names 2147483648 OrderBy.lastSeen [] ≠ .ok [] := by
  refine ⟨rfl, ?_⟩
  intro hcontra
  simp [show_names, selectTop, u32ToI32] at hcontra

/-- C5 (amended to positive limits up to 2147483647): ListTop returns at
most `limit` records, sorted descending by last_seen resp. count; when
fewer than `limit` records exist it returns all of them, and on an empty
registry it returns the empty sequence rather than an error. -/
theorem show_names_listTop (limit : Nat) (ord : OrderBy) (s : DbState)
    (h1 : 1 ≤ limit) (h2 : limit ≤ 2147483647) :
    ∃ out, show_names limit ord s = .ok out ∧
      out.length ≤ limit ∧
      out.Pairwise (fun a b => recLE ord a b = true) ∧
      (s.length ≤ limit → out.Perm s) ∧
      (s = [] → out = []) := by
  refine ⟨(s.mergeSort (recLE ord)).take limit, ?_, ?_, ?_, ?_, ?_⟩
  · exact show_names_ok limit ord s (by omega)
  · exact List.length_take_le limit (s.mergeSort (recLE ord))
  · exact List.Pairwise.sublist (List.take_sublist limit _)
      (List.sorted_mergeSort (recLE_trans ord) (recLE_total ord) s)
  · intro hlen
    rw [List.take_of_length_le (by rw [List.length_mergeSort]; exact hlen)]
    exact List.mergeSort_perm s (recLE ord)
  · intro he
    rw [he]
    simp

/-- Witness for C5 (amended): two records, limit 2, ordered by visits; the
query succeeds with at most 2 rows. -/
theorem show_names_listTop_witness :
    (show_names 2 OrderBy.visits [⟨"a", 5, 1⟩, ⟨"b", 9, 2⟩]).isOk = true := by
  obtain ⟨out, hout, -⟩ :=
    show_names_listTop 2 OrderBy.visits [⟨"a", 5, 1⟩, ⟨"b", 9, 2⟩] (by decide) (by decide)
  rw [hout]
  rfl

/-- C6: ClearAll is idempotent, succeeds on an empty registry, and ListTop
(with an in-range limit) after ClearAll returns the empty sequence. -/
theorem clear_database_idempotent (s : DbState) (limit : Nat) (ord : OrderBy)
    (h : limit ≤ 2147483647) :
    clear_database (clear_database s) = clear_database s ∧
    clear_database ([] : DbState) = [] ∧
    show_names limit ord (clear_database s) = .ok [] := by
  refine ⟨rfl, rfl, ?_⟩
  have hlt : limit < 2147483648 := by omega
  have hnn : ¬((limit : Int) < 0) := by omega
  unfold show_names clear_database selectTop
  rw [show u32ToI32 limit = (limit : Int) by simp [u32ToI32, hlt], if_neg hnn]
  simp

/-- Witness for C6 at a nonempty registry and limit 10. -/
theorem clear_database_idempotent_witness :
    clear_database (clear_database [⟨"a", 5, 1⟩]) = clear_database [⟨"a", 5, 1⟩] ∧
    clear_database ([] : DbState) = [] ∧
    show_names 10 OrderBy.lastSeen (clear_database [⟨"a", 5, 1⟩]) = .ok [] :=
  clear_database_idempotent [⟨"a", 5, 1⟩] 10 OrderBy.lastSeen (by decide)

/-- C7: the greeting is exactly the first-visit string when no previous
record exists, and otherwise exactly the repeat-visit string carrying the
pre-increment count and the previous last_seen; the stored count afterwards
is that previous count plus one. -/
theorem hello_name_message (x : String) (t : Nat) (s : DbState) :
    (findRecord x s = none →
      (hello_name x t s).1 = "Hello " ++ x ++ "! This is your first visit!") ∧
    (∀ r, findRecord x s = some r →
      (hello_name x t s).1 =
        "Hello " ++ x ++ "! You\x27ve been called " ++ toString r.count ++
          " times previously. Last seen: " ++ toString r.lastSeen ∧
      storedCount x (hello_name x t s).2 = r.count + 1) := by
  constructor
  · intro h
    simp [hello_name, recordVisit, greeting, h]
  · intro r h
    constructor
    · simp [hello_name, recordVisit, greeting, h]
    · rw [show (hello_name x t s).2 = upsert x t s from rfl, storedCount_upsert_self]
      unfold storedCount
      rw [h]

/-- Witness for C7: both greeting shapes at concrete inputs, and the stored
count after the repeat visit. -/
theorem hello_name_message_witness :
    (hello_name "alice" 3 []).1 = "Hello alice! This is your first visit!" ∧
    (hello_name "alice" 9 [⟨"alice", 4, 7⟩]).1 =
      "Hello alice! You\x27ve been called 4 times previously. Last seen: 7" ∧
    storedCount "alice" (hello_name "alice" 9 [⟨"alice", 4, 7⟩]).2 = 4 + 1 := by
  have h1 := (hello_name_message "alice" 3 []).1 rfl
  have h2 := (hello_name_message "alice" 9 [⟨"alice", 4, 7⟩]).2 ⟨"alice", 4, 7⟩ rfl
  exact ⟨h1, h2.1, h2.2⟩

/-- C8: a store fault in either round trip of RecordVisit surfaces as an
operation failure carrying the formatted fault message and leaves the
stored state unchanged; on the fault-free path the upsert applies fully and
the handler answers with the greeting. -/
theorem hello_name_fault_handling (e : String) (uf : Option String)
    (x : String) (t : Nat) (s : DbState) :
    hello_name_faulty (some e) uf x t s = (.error ("Database error: " ++ e), s) ∧
    hello_name_faulty none (some e) x t s = (.error ("Database error: " ++ e), s) ∧
    (hello_name_faulty none none x t s).2 = upsert x t s ∧
    (hello_name_faulty none none x t s).1 = .ok (hello_name x t s).1 :=
  ⟨rfl, rfl, rfl, rfl⟩

/-- C9: a successful RecordVisit for `x` leaves the record of every other
name exactly as it was. -/
theorem recordVisit_frame (x y : String) (t : Nat) (s : DbState)
    (h : y ≠ x) :
    findRecord y ((recordVisit x t s).2) = findRecord y s := by
  rw [recordVisit_snd]
  exact findRecord_upsert_other x y t s h

/-- Witness for C9: a visit for alice does not disturb the record of bob. -/
theorem recordVisit_frame_witness :
    findRecord "bob" ((recordVisit "alice" 9 [⟨"bob", 2, 5⟩]).2) =
      findRecord "bob" [⟨"bob", 2, 5⟩] :=
  recordVisit_frame "alice" "bob" 9 [⟨"bob", 2, 5⟩] (by decide)

/-- C10: the u32 limit of `show_names` is reinterpreted as an i32; for every
limit from 1 to 2147483647 the cast is the identity and the query succeeds
with at most `limit` rows, while for every u32 limit above 2147483647 the
cast is negative and the query fails. -/
theorem show_names_limit_cast (limit : Nat) (ord : OrderBy) (s : DbState) :
    (1 ≤ limit → limit ≤ 2147483647 →
      u32ToI32 limit = (limit : Int) ∧
      ∃ out, show_names limit ord s = .ok out ∧ out.length ≤ limit) ∧
    (2147483647 < limit → limit < 4294967296 →
      u32ToI32 limit < 0 ∧
      show_names limit ord s = .error "LIMIT must not be negative") := by
  constructor
  · intro h1 h2
    refine ⟨by simp [u32ToI32, show limit < 2147483648 by omega],
      (s.mergeSort (recLE ord)).take limit,
      show_names_ok limit ord s (by omega),
      List.length_take_le limit (s.mergeSort (recLE ord))⟩
  · intro h1 h2
    have hge : ¬(limit < 2147483648) := by omega
    have hneg : u32ToI32 limit < 0 := by
      unfold u32ToI32
      rw [if_neg hge]
      omega
    refine ⟨hneg, ?_⟩
    unfold show_names selectTop
    rw [if_pos hneg]

/-- Witness for C10: limit 10 passes through the cast unchanged and the
query succeeds; limit 2147483648 casts negative and the query fails. -/
theorem show_names_limit_cast_witness :
    u32ToI32 10 = (10 : Int) ∧
    (show_names 10 OrderBy.visits [⟨"a", 5, 1⟩]).isOk = true ∧
    u32ToI32 2147483648 < 0 ∧
    show_names 2147483648 OrderBy.visits [⟨"a", 5, 1⟩] =
      .error "LIMIT must not be negative" := by
  have h1 := (show_names_limit_cast 10 OrderBy.visits [⟨"a", 5, 1⟩]).1
    (by decide) (by decide)
  have h2 := (show_names_limit_cast 2147483648 OrderBy.visits [⟨"a", 5, 1⟩]).2
    (by decide) (by decide)
  obtain ⟨hc, out, hok, -⟩ := h1
  exact ⟨hc, by rw [hok]; rfl, h2.1, h2.2⟩

end Blort
